import Mathlib

/-!
Verification of the MACD scanner core (`app_simple_macd.py`): indicator
engine, signal classifier, crossover detector, alert deduplication and
notification throttling. Prices and indicator values are modelled as
rationals; signal labels are the literal strings the program uses.
-/

namespace MacdScanner

/-- Python's `l[-1]`: the last element of a list, with a default for the
empty list (the program only evaluates it on non-empty lists). -/
def last_value {α : Type} (l : List α) (d : α) : α :=
  l.getD (l.length - 1) d

/-- `calculate_ema` inner loop: given the previous EMA value, emit
`data[i] * k + ema[i-1] * (1 - k)` for each remaining element
(the `for i in range(1, len(data))` loop building `ema_array`). -/
def ema_loop (k : ℚ) (prev : ℚ) : List ℚ → List ℚ
  | [] => []
  | x :: xs =>
    let v := x * k + prev * (1 - k)
    v :: ema_loop k v xs

/-- `calculate_ema(data, period)`: returns `[]` on empty input, otherwise
seeds with `data[0]` and applies the recurrence with `k = 2 / (period + 1)`. -/
def calculate_ema (data : List ℚ) (period : ℕ) : List ℚ :=
  match data with
  | [] => []
  | d :: rest => d :: ema_loop (2 / ((period : ℚ) + 1)) d rest

/-- The inline signal classification of `calculate_macd` (the
`if/elif` chain producing one label per index). -/
def classify_signal (m s : ℚ) : String :=
  if m > s ∧ m > 0 ∧ s > 0 then "STRONG BUY"
  else if m < s ∧ m < 0 ∧ s < 0 then "STRONG SELL"
  else if m > s ∧ m < 0 then "WEAK BUY"
  else if m < s ∧ m > 0 then "WEAK SELL"
  else if m > s then "BUY"
  else if m < s then "SELL"
  else "NO SIGNAL"

/-- The seven momentum labels the program can emit. -/
def all_labels : List String :=
  ["STRONG BUY", "STRONG SELL", "WEAK BUY", "WEAK SELL", "BUY", "SELL", "NO SIGNAL"]

/-- The spec's rule table for the classifier: an ordered list of
(condition, label) pairs, to be scanned first-match-wins. -/
def classifier_rules (m s : ℚ) : List (Bool × String) :=
  [ (decide (m > s) && decide (m > 0) && decide (s > 0), "STRONG BUY")
  , (decide (m < s) && decide (m < 0) && decide (s < 0), "STRONG SELL")
  , (decide (m > s) && decide (m < 0), "WEAK BUY")
  , (decide (m < s) && decide (m > 0), "WEAK SELL")
  , (decide (m > s), "BUY")
  , (decide (m < s), "SELL") ]

/-- First-match semantics over the spec's rule table, defaulting to
`NO SIGNAL` when no rule fires. -/
def classify_first_match (m s : ℚ) : String :=
  (((classifier_rules m s).find? (fun r => r.1)).map (fun r => r.2)).getD "NO SIGNAL"

/-- `macd_line[i] = fast_ema[i] - slow_ema[i]` over the whole series. -/
def macd_line (close_prices : List ℚ) : List ℚ :=
  List.zipWith (fun a b => a - b)
    (calculate_ema close_prices 12) (calculate_ema close_prices 26)

/-- `signal_line = calculate_ema(macd_line, 9)`. -/
def signal_line (close_prices : List ℚ) : List ℚ :=
  calculate_ema (macd_line close_prices) 9

/-- The per-index labels `signals` built inside `calculate_macd`. -/
def macd_signals (close_prices : List ℚ) : List String :=
  List.zipWith classify_signal (macd_line close_prices) (signal_line close_prices)

/-- The dictionary `calculate_macd` returns. -/
structure MacdData where
  macd : ℚ
  signal : ℚ
  histogram : ℚ
  signals : List String
deriving DecidableEq

/-- `calculate_macd(close_prices)`: `None` when fewer than 30 prices,
otherwise last MACD/signal values, their difference as histogram, and the
per-index label list. -/
def calculate_macd (close_prices : List ℚ) : Option MacdData :=
  if close_prices.length < 30 then
    none
  else
    some
      { macd := last_value (macd_line close_prices) 0
      , signal := last_value (signal_line close_prices) 0
      , histogram := last_value (macd_line close_prices) 0 - last_value (signal_line close_prices) 0
      , signals := macd_signals close_prices }

/-- The bearish label set of `scan_crossovers`. -/
def bearish_signals : List String := ["SELL", "WEAK SELL", "STRONG SELL"]

/-- The bullish label set of `scan_crossovers`. -/
def bullish_signals : List String := ["BUY", "WEAK BUY", "STRONG BUY"]

/-- `current_signal = macd_data['signals'][-1] if macd_data['signals'] else "NO SIGNAL"`. -/
def current_signal (signals : List String) : String :=
  if signals.isEmpty then "NO SIGNAL" else last_value signals "NO SIGNAL"

/-- `prev_signal = macd_data['signals'][-2] if len(macd_data['signals']) > 1 else "NO SIGNAL"`. -/
def prev_signal (signals : List String) : String :=
  if 1 < signals.length then signals.getD (signals.length - 2) "NO SIGNAL"
  else "NO SIGNAL"

/-- The guard of `scan_crossovers` that appends a crossover event:
`prev_signal in bearish_signals and current_signal in bullish_signals`. -/
def crossover_fires (signals : List String) : Bool :=
  decide (prev_signal signals ∈ bearish_signals) &&
    decide (current_signal signals ∈ bullish_signals)

/-- The dictionary appended to `crossovers` in `scan_crossovers`.
Timestamps are modelled as strings (the program formats datetimes into
its alert keys via string interpolation). -/
structure Crossover where
  symbol : String
  type : String
  previous_type : String
  current_signal : String
  timestamp : String
  macd : ℚ
  signal : ℚ
  price : ℚ
  timeframe : String
deriving DecidableEq

/-- Event construction in `scan_crossovers`: the stored symbol is the
ticker with `.NS` removed, the stored timestamp is `get_ist_time()` taken
at creation (`now`), and the other fields are copied through. -/
def make_crossover (symbol : String) (now : String) (prevSig currSig : String)
    (macdVal sigVal priceVal : ℚ) (timeframe : String) : Crossover :=
  { symbol := symbol.replace ".NS" ""
  , type := "bullish"
  , previous_type := prevSig
  , current_signal := currSig
  , timestamp := now
  , macd := macdVal
  , signal := sigVal
  , price := priceVal
  , timeframe := timeframe }

/-- The alert key `f"{c['symbol']}_{c['timestamp']}"` used by
`scan_stocks_now` for dedup membership tests. -/
def alert_key (c : Crossover) : String :=
  c.symbol ++ "_" ++ c.timestamp

/-- `current_alerts_* = {f"{c['symbol']}_{c['timestamp']}" for c in crossovers}`. -/
def current_alerts (cs : List Crossover) : Finset String :=
  (cs.map alert_key).toFinset

/-- `new_alerts_* = [c for c in crossovers if key(c) not in previous_alerts]`. -/
def new_alerts (previous_alerts : Finset String) (cs : List Crossover) : List Crossover :=
  cs.filter (fun c => alert_key c ∉ previous_alerts)

/-- The session state `scan_stocks_now` mutates at the end of a scan. -/
structure ScanState where
  crossover_data_4h : List Crossover
  crossover_data_1d : List Crossover
  previous_alerts : Finset String
deriving DecidableEq

/-- The state update at the end of `scan_stocks_now`: both event lists are
stored and `previous_alerts` is replaced by the union of the two current
key sets (no union with the incoming ledger). -/
def scan_stocks_update (st : ScanState) (crossovers_4h crossovers_1d : List Crossover) :
    ScanState :=
  { crossover_data_4h := crossovers_4h
  , crossover_data_1d := crossovers_1d
  , previous_alerts := current_alerts crossovers_4h ∪ current_alerts crossovers_1d }

/-- Outcome of the notification branch of `scan_stocks_now`. -/
inductive NotifyOutcome where
  | sent
  | sendFailed
  | cooldownSuppressed
  | skipped
deriving DecidableEq

/-- The throttle branch of `scan_stocks_now`. Timestamps are rational
seconds (`total_seconds()`); `sendOk` is the Boolean result of
`send_telegram_alerts`. Returns the outcome and the updated
`last_telegram_sent_time`: set to `now` exactly on a successful send,
otherwise unchanged. -/
def scan_notify (all_new_alerts : List Crossover) (notification_enabled : Bool)
    (now last_telegram_sent_time : ℚ) (sendOk : Bool) :
    NotifyOutcome × ℚ :=
  if all_new_alerts ≠ [] ∧ notification_enabled = true then
    if (now - last_telegram_sent_time) / 60 ≥ 45 then
      if sendOk then (.sent, now)
      else (.sendFailed, last_telegram_sent_time)
    else (.cooldownSuppressed, last_telegram_sent_time)
  else (.skipped, last_telegram_sent_time)

/-- A 1-hour OHLCV bar; `timestamp` is its hour index since some origin. -/
structure Bar where
  Open : ℚ
  High : ℚ
  Low : ℚ
  Close : ℚ
  Volume : ℚ
  timestamp : ℕ
deriving DecidableEq

/-- The 4-hour bucket an hourly bar falls into. -/
def bucket_of (b : Bar) : ℕ := b.timestamp / 4

/-- Modelled from the spec: the per-bucket aggregation performed by the
pandas call `hist.resample('4h').agg({'Open':'first','High':'max','Low':'min',
'Close':'last','Volume':'sum'})`, whose bucketing machinery is library code
not present in this repository. For a non-empty group: open of the first
bar, max high, min low, close of the last bar, sum of volumes. -/
def agg_bucket (bkt : ℕ) (grp : List Bar) : Bar :=
  match grp with
  | [] => ⟨0, 0, 0, 0, 0, bkt * 4⟩
  | g :: gs =>
    { Open := g.Open
    , High := (gs.map (fun b => b.High)).foldl max g.High
    , Low := (gs.map (fun b => b.Low)).foldl min g.Low
    , Close := ((g :: gs).getLastD g).Close
    , Volume := ((g :: gs).map (fun b => b.Volume)).sum
    , timestamp := bkt * 4 }

/-- Modelled from the spec: `hist.resample('4h').agg(...).dropna()` —
group the hourly bars into 4-hour buckets, aggregate each non-empty
bucket, and drop buckets with no contributing bars (`dropna`). -/
def resample_4h (bars : List Bar) : List Bar :=
  ((bars.map bucket_of).dedup).map
    (fun bkt => agg_bucket bkt (bars.filter (fun b => bucket_of b = bkt)))

/-! ### Basic lemmas about the indicator engine -/

lemma ema_loop_length (k prev : ℚ) (xs : List ℚ) :
    (ema_loop k prev xs).length = xs.length := by
  induction xs generalizing prev with
  | nil => rfl
  | cons x xs ih => simp [ema_loop, ih]

lemma calculate_ema_length (data : List ℚ) (period : ℕ) :
    (calculate_ema data period).length = data.length := by
  cases data with
  | nil => rfl
  | cons d rest => simp [calculate_ema, ema_loop_length]

lemma ema_loop_getD (k : ℚ) (xs : List ℚ) (prev : ℚ) (i : ℕ) (h : i < xs.length) :
    (ema_loop k prev xs).getD i 0 =
      xs.getD i 0 * k +
        (if i = 0 then prev else (ema_loop k prev xs).getD (i - 1) 0) * (1 - k) := by
  induction xs generalizing prev i with
  | nil => simp at h
  | cons x xs ih =>
    cases i with
    | zero => simp [ema_loop]
    | succ j =>
      have hj : j < xs.length := by simpa using h
      simp only [ema_loop, List.getD_cons_succ]
      rw [ih _ j hj]
      cases j with
      | zero => simp
      | succ j' => simp

lemma calculate_ema_getD (data : List ℚ) (period : ℕ) (i : ℕ)
    (h1 : 1 ≤ i) (h2 : i < data.length) :
    (calculate_ema data period).getD i 0 =
      data.getD i 0 * (2 / ((period : ℚ) + 1)) +
        (calculate_ema data period).getD (i - 1) 0 * (1 - 2 / ((period : ℚ) + 1)) := by
  cases data with
  | nil => simp at h2
  | cons d rest =>
    obtain ⟨j, rfl⟩ : ∃ j, i = j + 1 := ⟨i - 1, (Nat.succ_pred_eq_of_pos h1).symm⟩
    have hj : j < rest.length := by simpa using h2
    simp only [calculate_ema, List.getD_cons_succ, Nat.add_sub_cancel]
    rw [ema_loop_getD _ rest d j hj]
    cases j with
    | zero => simp
    | succ j' => simp

/-- C6: `calculate_ema` returns `[]` on empty input; otherwise it preserves
length, its first output equals the first input, and for every `i ≥ 1` it
satisfies `out[i] = data[i]*k + out[i-1]*(1-k)` with `k = 2/(period+1)`;
consequently a singleton input is returned unchanged for any period. -/
theorem calculate_ema_spec (data : List ℚ) (period : ℕ) :
    calculate_ema ([] : List ℚ) period = [] ∧
    (calculate_ema data period).length = data.length ∧
    (data ≠ [] → (calculate_ema data period).getD 0 0 = data.getD 0 0) ∧
    (∀ i : ℕ, 1 ≤ i → i < data.length →
      (calculate_ema data period).getD i 0 =
        data.getD i 0 * (2 / ((period : ℚ) + 1)) +
          (calculate_ema data period).getD (i - 1) 0 * (1 - 2 / ((period : ℚ) + 1))) ∧
    (∀ x : ℚ, calculate_ema [x] period = [x]) := by
  refine ⟨rfl, calculate_ema_length data period, ?_,
    fun i h1 h2 => calculate_ema_getD data period i h1 h2, fun x => rfl⟩
  intro hne
  cases data with
  | nil => exact absurd rfl hne
  | cons d rest => simp [calculate_ema]

/-- Witness for C6 at `data = [1, 2, 4]`, `period = 1`, `i = 1`. -/
theorem calculate_ema_spec_witness :
    ((calculate_ema [(1 : ℚ), 2, 4] 1).getD 0 0 = [(1 : ℚ), 2, 4].getD 0 0) ∧
    ((calculate_ema [(1 : ℚ), 2, 4] 1).getD 1 0 =
      [(1 : ℚ), 2, 4].getD 1 0 * (2 / (((1 : ℕ) : ℚ) + 1)) +
        (calculate_ema [(1 : ℚ), 2, 4] 1).getD (1 - 1) 0 * (1 - 2 / (((1 : ℕ) : ℚ) + 1))) :=
  ⟨(calculate_ema_spec [(1 : ℚ), 2, 4] 1).2.2.1 (by decide),
   (calculate_ema_spec [(1 : ℚ), 2, 4] 1).2.2.2.1 1 (by decide) (by decide)⟩

/-- C5: `calculate_macd` returns `None` exactly when the input has fewer
than 30 elements; in particular no result at length 29 and a result at
length 30. -/
theorem calculate_macd_none_iff (close_prices : List ℚ) :
    (calculate_macd close_prices = none ↔ close_prices.length < 30) ∧
    calculate_macd (List.replicate 29 (1 : ℚ)) = none ∧
    (calculate_macd (List.replicate 30 (1 : ℚ))).isSome = true := by
  refine ⟨?_, rfl, rfl⟩
  unfold calculate_macd
  split <;> simp_all

lemma macd_line_length (close_prices : List ℚ) :
    (macd_line close_prices).length = close_prices.length := by
  simp [macd_line, calculate_ema_length]

lemma signal_line_length (close_prices : List ℚ) :
    (signal_line close_prices).length = close_prices.length := by
  simp [signal_line, calculate_ema_length, macd_line_length]

lemma macd_signals_length (close_prices : List ℚ) :
    (macd_signals close_prices).length = close_prices.length := by
  simp [macd_signals, macd_line_length, signal_line_length]

lemma macd_line_getD (close_prices : List ℚ) (i : ℕ) (h : i < close_prices.length) :
    (macd_line close_prices).getD i 0 =
      (calculate_ema close_prices 12).getD i 0 - (calculate_ema close_prices 26).getD i 0 := by
  have h12 : i < (calculate_ema close_prices 12).length := by
    rw [calculate_ema_length]; exact h
  have h26 : i < (calculate_ema close_prices 26).length := by
    rw [calculate_ema_length]; exact h
  have hz : i < (macd_line close_prices).length := by
    rw [macd_line_length]; exact h
  rw [List.getD_eq_getElem _ _ hz, List.getD_eq_getElem _ _ h12,
    List.getD_eq_getElem _ _ h26]
  simp [macd_line]

/-- C7: for at least 30 prices, the MACD line is the index-aligned
difference of the 12- and 26-period EMAs with no truncation, the signal
line is the 9-period EMA of the MACD line, the histogram is the last MACD
value minus the last signal value, and all derived series (labels
included) have the length of the input. -/
theorem calculate_macd_structure (close_prices : List ℚ)
    (h : 30 ≤ close_prices.length) :
    (macd_line close_prices).length = close_prices.length ∧
    (signal_line close_prices).length = close_prices.length ∧
    (∀ i : ℕ, i < close_prices.length →
      (macd_line close_prices).getD i 0 =
        (calculate_ema close_prices 12).getD i 0 -
          (calculate_ema close_prices 26).getD i 0) ∧
    signal_line close_prices = calculate_ema (macd_line close_prices) 9 ∧
    calculate_macd close_prices =
      some
        { macd := last_value (macd_line close_prices) 0
        , signal := last_value (signal_line close_prices) 0
        , histogram := last_value (macd_line close_prices) 0 -
            last_value (signal_line close_prices) 0
        , signals := macd_signals close_prices } ∧
    (macd_signals close_prices).length = close_prices.length := by
  refine ⟨macd_line_length close_prices, signal_line_length close_prices,
    fun i hi => macd_line_getD close_prices i hi, rfl, ?_,
    macd_signals_length close_prices⟩
  unfold calculate_macd
  rw [if_neg (Nat.not_lt.2 h)]

/-- Witness for C7 at a 30-element constant price series. -/
theorem calculate_macd_structure_witness :
    (macd_line (List.replicate 30 (1 : ℚ))).length = (List.replicate 30 (1 : ℚ)).length ∧
    (signal_line (List.replicate 30 (1 : ℚ))).length = (List.replicate 30 (1 : ℚ)).length ∧
    (∀ i : ℕ, i < (List.replicate 30 (1 : ℚ)).length →
      (macd_line (List.replicate 30 (1 : ℚ))).getD i 0 =
        (calculate_ema (List.replicate 30 (1 : ℚ)) 12).getD i 0 -
          (calculate_ema (List.replicate 30 (1 : ℚ)) 26).getD i 0) ∧
    signal_line (List.replicate 30 (1 : ℚ)) =
      calculate_ema (macd_line (List.replicate 30 (1 : ℚ))) 9 ∧
    calculate_macd (List.replicate 30 (1 : ℚ)) =
      some
        { macd := last_value (macd_line (List.replicate 30 (1 : ℚ))) 0
        , signal := last_value (signal_line (List.replicate 30 (1 : ℚ))) 0
        , histogram := last_value (macd_line (List.replicate 30 (1 : ℚ))) 0 -
            last_value (signal_line (List.replicate 30 (1 : ℚ))) 0
        , signals := macd_signals (List.replicate 30 (1 : ℚ)) } ∧
    (macd_signals (List.replicate 30 (1 : ℚ))).length =
      (List.replicate 30 (1 : ℚ)).length :=
  calculate_macd_structure (List.replicate 30 (1 : ℚ)) (by decide)

/-! ### The signal classifier -/

lemma first_match_eval (b1 b2 b3 b4 b5 b6 : Bool) (l1 l2 l3 l4 l5 l6 : String) :
    ((List.find? (fun r => r.1)
        [(b1, l1), (b2, l2), (b3, l3), (b4, l4), (b5, l5), (b6, l6)]).map
      (fun r => r.2)).getD "NO SIGNAL" =
      if b1 then l1 else if b2 then l2 else if b3 then l3
      else if b4 then l4 else if b5 then l5 else if b6 then l6
      else "NO SIGNAL" := by
  cases b1 <;> cases b2 <;> cases b3 <;> cases b4 <;> cases b5 <;> cases b6 <;> rfl

lemma classify_signal_eq_first_match (m s : ℚ) :
    classify_signal m s = classify_first_match m s := by
  unfold classify_signal classify_first_match classifier_rules
  rw [first_match_eval]
  simp only [Bool.and_eq_true, decide_eq_true_eq, and_assoc]

lemma classify_signal_mem_all_labels (m s : ℚ) :
    classify_signal m s ∈ all_labels := by
  unfold classify_signal all_labels
  split_ifs <;> simp

/-- C1: for every pair `(m, s)` the classifier returns one of the seven
labels, and its value agrees with the first-match scan of the spec's
ordered rule table (so the precedence order is exactly as stated and the
classification is a pure function of `m` and `s`). -/
theorem classify_signal_spec :
    ∀ m s : ℚ, classify_signal m s = classify_first_match m s ∧
      classify_signal m s ∈ all_labels :=
  fun m s => ⟨classify_signal_eq_first_match m s, classify_signal_mem_all_labels m s⟩

/-- C9 counterexample: at `m = -2`, `s = -1` the classifier does not
return WEAK SELL. -/
theorem classify_neg_two_neg_one_not_weak_sell :
    classify_signal (-2) (-1) ≠ "WEAK SELL" := by decide

/-- C9 amended: at `m = -2`, `s = -1` rule 2 fires (`m < s`, `m < 0`,
`s < 0`) and the classifier returns STRONG SELL. -/
theorem classify_neg_two_neg_one_strong_sell :
    classify_signal (-2) (-1) = "STRONG SELL" := by decide

/-! ### Crossover detection -/

lemma crossover_fires_eval (labels : List String) (h : 2 ≤ labels.length) :
    crossover_fires labels =
      (decide (labels.getD (labels.length - 2) "NO SIGNAL" ∈ bearish_signals) &&
        decide (labels.getD (labels.length - 1) "NO SIGNAL" ∈ bullish_signals)) := by
  have hne : labels.isEmpty = false := by
    cases labels with
    | nil => simp at h
    | cons a l => rfl
  have h1 : 1 < labels.length := h
  simp [crossover_fires, prev_signal, current_signal, last_value, hne, h1]

/-- C2: with at least two labels, the detector fires exactly when the
second-to-last label is bearish and the last label is bullish; any
transition whose endpoint is NO SIGNAL never fires; and the outcome
depends only on the last two labels. -/
theorem scan_crossovers_transition (labels : List String) (h : 2 ≤ labels.length) :
    (crossover_fires labels = true ↔
      labels.getD (labels.length - 2) "NO SIGNAL" ∈ bearish_signals ∧
        labels.getD (labels.length - 1) "NO SIGNAL" ∈ bullish_signals) ∧
    ((labels.getD (labels.length - 2) "NO SIGNAL" = "NO SIGNAL" ∨
        labels.getD (labels.length - 1) "NO SIGNAL" = "NO SIGNAL") →
      crossover_fires labels = false) ∧
    (∀ labels' : List String, 2 ≤ labels'.length →
      labels.getD (labels.length - 2) "NO SIGNAL" =
        labels'.getD (labels'.length - 2) "NO SIGNAL" →
      labels.getD (labels.length - 1) "NO SIGNAL" =
        labels'.getD (labels'.length - 1) "NO SIGNAL" →
      crossover_fires labels = crossover_fires labels') := by
  refine ⟨?_, ?_, ?_⟩
  · rw [crossover_fires_eval labels h]
    simp [Bool.and_eq_true]
  · intro hcase
    rw [crossover_fires_eval labels h]
    rcases hcase with hc | hc
    · rw [hc]
      simp [bearish_signals]
    · rw [hc]
      simp [bullish_signals]
  · intro labels' h' e1 e2
    rw [crossover_fires_eval labels h, crossover_fires_eval labels' h', e1, e2]

/-- Witness for C2: SELL followed by BUY fires. -/
theorem scan_crossovers_transition_witness :
    (crossover_fires ["SELL", "BUY"] = true ↔
      ["SELL", "BUY"].getD (["SELL", "BUY"].length - 2) "NO SIGNAL" ∈ bearish_signals ∧
        ["SELL", "BUY"].getD (["SELL", "BUY"].length - 1) "NO SIGNAL" ∈ bullish_signals) ∧
    crossover_fires ["NO SIGNAL", "BUY"] = false :=
  ⟨(scan_crossovers_transition ["SELL", "BUY"] (by decide)).1,
   (scan_crossovers_transition ["NO SIGNAL", "BUY"] (by decide)).2.1 (Or.inl (by decide))⟩

/-! ### Alert deduplication -/

/-- A sample crossover event used in concrete instances. -/
def event_A : Crossover :=
  ⟨"TCS", "bullish", "SELL", "BUY", "2025-01-01 10:00", 1, 2, 100, "4h"⟩

/-- A second sample event with a different symbol. -/
def event_B : Crossover :=
  ⟨"INFY", "bullish", "WEAK SELL", "BUY", "2025-01-01 10:00", 1, 2, 50, "4h"⟩

/-- A variant of `event_A` created at a later scan time. -/
def event_C : Crossover :=
  ⟨"TCS", "bullish", "SELL", "BUY", "2025-01-01 11:00", 1, 2, 100, "4h"⟩

/-- C3: `new_alerts` keeps exactly the events whose key is not in the
previous ledger, and the ledger written back by `scan_stocks_update` is
the union of the two current key sets, independent of the incoming state
(wholesale replacement). Concretely with ledger `{key A}` and events
`{A, B}`, the new events are `[B]` and the next ledger is
`{key A, key B}`. -/
theorem scan_dedup_spec :
    (∀ (previous_alerts : Finset String) (cs4 cs1 : List Crossover) (st : ScanState),
      (∀ c, c ∈ new_alerts previous_alerts cs4 ↔
        c ∈ cs4 ∧ alert_key c ∉ previous_alerts) ∧
      (∀ c, c ∈ new_alerts previous_alerts cs1 ↔
        c ∈ cs1 ∧ alert_key c ∉ previous_alerts) ∧
      (scan_stocks_update st cs4 cs1).previous_alerts =
        current_alerts cs4 ∪ current_alerts cs1 ∧
      (∀ st' : ScanState,
        (scan_stocks_update st cs4 cs1).previous_alerts =
          (scan_stocks_update st' cs4 cs1).previous_alerts)) ∧
    new_alerts {alert_key event_A} [event_A, event_B] = [event_B] ∧
    (∀ st : ScanState,
      (scan_stocks_update st [event_A, event_B] []).previous_alerts =
        {alert_key event_A, alert_key event_B}) := by
  refine ⟨fun prev cs4 cs1 st => ⟨?_, ?_, rfl, fun st' => rfl⟩, ?_, fun st => ?_⟩
  · intro c
    simp [new_alerts, List.mem_filter]
  · intro c
    simp [new_alerts, List.mem_filter]
  · decide
  · show current_alerts [event_A, event_B] ∪ current_alerts [] =
      {alert_key event_A, alert_key event_B}
    decide

/-! ### Notification throttling -/

/-- C4: with new events present and notifications enabled, the scan sends
exactly when at least 45 minutes have elapsed since the last send,
updating the last-sent time to `now` only on a successful send and
leaving it unchanged on failure; under 45 minutes it suppresses and keeps
the state; at exactly 45 minutes it sends. Timestamps are in seconds. -/
theorem scan_notify_throttle (alerts : List Crossover) (now last : ℚ) (ok : Bool)
    (halerts : alerts ≠ []) :
    ((45 : ℚ) ≤ (now - last) / 60 →
      scan_notify alerts true now last ok =
        (if ok then (NotifyOutcome.sent, now) else (NotifyOutcome.sendFailed, last))) ∧
    ((now - last) / 60 < 45 →
      scan_notify alerts true now last ok = (NotifyOutcome.cooldownSuppressed, last)) ∧
    scan_notify alerts true (last + 45 * 60) last ok =
      (if ok then (NotifyOutcome.sent, last + 45 * 60) else (NotifyOutcome.sendFailed, last)) ∧
    scan_notify alerts true (last + 44 * 60) last ok =
      (NotifyOutcome.cooldownSuppressed, last) := by
  refine ⟨?_, ?_, ?_, ?_⟩
  · intro h45
    unfold scan_notify
    rw [if_pos ⟨halerts, rfl⟩, if_pos h45]
  · intro hlt
    unfold scan_notify
    rw [if_pos ⟨halerts, rfl⟩, if_neg (not_le.2 hlt)]
  · have h : (last + 45 * 60 - last) / 60 = 45 := by ring
    unfold scan_notify
    rw [if_pos ⟨halerts, rfl⟩, if_pos (by rw [h])]
  · have h : (last + 44 * 60 - last) / 60 = 44 := by ring
    unfold scan_notify
    rw [if_pos ⟨halerts, rfl⟩, if_neg (by rw [h]; norm_num)]

/-- Witness for C4 with one new event, `now = 2700` seconds,
`last = 0`, successful send. -/
theorem scan_notify_throttle_witness :
    ((45 : ℚ) ≤ ((2700 : ℚ) - 0) / 60 →
      scan_notify [event_A] true 2700 0 true =
        (if true then (NotifyOutcome.sent, (2700 : ℚ))
         else (NotifyOutcome.sendFailed, (0 : ℚ)))) ∧
    (((2700 : ℚ) - 0) / 60 < 45 →
      scan_notify [event_A] true 2700 0 true = (NotifyOutcome.cooldownSuppressed, 0)) ∧
    scan_notify [event_A] true ((0 : ℚ) + 45 * 60) 0 true =
      (if true then (NotifyOutcome.sent, (0 : ℚ) + 45 * 60)
       else (NotifyOutcome.sendFailed, (0 : ℚ))) ∧
    scan_notify [event_A] true ((0 : ℚ) + 44 * 60) 0 true =
      (NotifyOutcome.cooldownSuppressed, 0) :=
  scan_notify_throttle [event_A] 2700 0 true (by decide)

/-! ### 4-hour aggregation -/

lemma le_foldl_max (l : List ℚ) (a : ℚ) : a ≤ l.foldl max a := by
  induction l generalizing a with
  | nil => exact le_refl a
  | cons x xs ih => exact le_trans (le_max_left a x) (ih (max a x))

lemma mem_le_foldl_max (l : List ℚ) (a x : ℚ) (hx : x ∈ l) : x ≤ l.foldl max a := by
  induction l generalizing a with
  | nil => simp at hx
  | cons y ys ih =>
    rcases List.mem_cons.1 hx with rfl | h
    · exact le_trans (le_max_right a x) (le_foldl_max ys (max a x))
    · exact ih (max a y) h

lemma foldl_max_mem (l : List ℚ) (a : ℚ) : l.foldl max a = a ∨ l.foldl max a ∈ l := by
  induction l generalizing a with
  | nil => exact Or.inl rfl
  | cons x xs ih =>
    rcases ih (max a x) with h | h
    · rcases max_choice a x with hm | hm
      · exact Or.inl (by rw [List.foldl_cons, h, hm])
      · exact Or.inr (by rw [List.foldl_cons, h, hm]; exact List.mem_cons_self x xs)
    · exact Or.inr (List.mem_cons_of_mem x h)

lemma foldl_min_le (l : List ℚ) (a : ℚ) : l.foldl min a ≤ a := by
  induction l generalizing a with
  | nil => exact le_refl a
  | cons x xs ih => exact le_trans (ih (min a x)) (min_le_left a x)

lemma foldl_min_le_mem (l : List ℚ) (a x : ℚ) (hx : x ∈ l) : l.foldl min a ≤ x := by
  induction l generalizing a with
  | nil => simp at hx
  | cons y ys ih =>
    rcases List.mem_cons.1 hx with rfl | h
    · exact le_trans (foldl_min_le ys (min a x)) (min_le_right a x)
    · exact ih (min a y) h

lemma foldl_min_mem (l : List ℚ) (a : ℚ) : l.foldl min a = a ∨ l.foldl min a ∈ l := by
  induction l generalizing a with
  | nil => exact Or.inl rfl
  | cons x xs ih =>
    rcases ih (min a x) with h | h
    · rcases min_choice a x with hm | hm
      · exact Or.inl (by rw [List.foldl_cons, h, hm])
      · exact Or.inr (by rw [List.foldl_cons, h, hm]; exact List.mem_cons_self x xs)
    · exact Or.inr (List.mem_cons_of_mem x h)

lemma getLastD_eq_getD {α : Type} (l : List α) (d : α) :
    l.getLastD d = l.getD (l.length - 1) d := by
  induction l generalizing d with
  | nil => rfl
  | cons a l ih =>
    cases l with
    | nil => rfl
    | cons b l' =>
      rw [List.getLastD_cons, ih a]
      have hlen : (b :: l').length - 1 < (b :: l').length := by simp
      rw [List.getD_eq_getElem _ _ hlen]
      have hlen' : (a :: b :: l').length - 1 < (a :: b :: l').length := by simp
      rw [List.getD_eq_getElem _ _ hlen']
      simp

lemma agg_bucket_timestamp (bkt : ℕ) (grp : List Bar) :
    (agg_bucket bkt grp).timestamp = bkt * 4 := by
  cases grp <;> rfl

lemma resample_4h_buckets (bars : List Bar) (bkt : ℕ) :
    (∃ a ∈ resample_4h bars, a.timestamp = bkt * 4) ↔
      ∃ b ∈ bars, bucket_of b = bkt := by
  constructor
  · rintro ⟨a, ha, hts⟩
    obtain ⟨bkt', hbkt', rfl⟩ := List.mem_map.1 ha
    rw [agg_bucket_timestamp] at hts
    have hb : bkt' = bkt := Nat.eq_of_mul_eq_mul_right (by norm_num) hts
    subst hb
    have := List.mem_dedup.1 hbkt'
    obtain ⟨b, hb, hbe⟩ := List.mem_map.1 this
    exact ⟨b, hb, hbe⟩
  · rintro ⟨b, hb, rfl⟩
    refine ⟨agg_bucket (bucket_of b)
      (bars.filter (fun x => bucket_of x = bucket_of b)), ?_, ?_⟩
    · exact List.mem_map.2 ⟨bucket_of b,
        List.mem_dedup.2 (List.mem_map.2 ⟨b, hb, rfl⟩), rfl⟩
    · exact agg_bucket_timestamp _ _

/-- A sample hourly bar (hour 0). -/
def bar_a : Bar := ⟨10, 12, 9, 11, 100, 0⟩

/-- A second sample hourly bar in the same 4-hour bucket (hour 1). -/
def bar_b : Bar := ⟨11, 13, 8, 12, 200, 1⟩

/-- C8: each non-empty 4-hour bucket aggregates to open of the first bar,
close of the last bar, the sum of volumes, a high that bounds every bar's
high from above and is attained, and a low that bounds every bar's low
from below and is attained; a bucket appears in the output exactly when
some hourly bar falls into it; and the two sample bars aggregate to the
single bucket `(10, 13, 8, 12, 300)`. -/
theorem resample_4h_spec :
    (∀ (bkt : ℕ) (g : Bar) (gs : List Bar),
      (agg_bucket bkt (g :: gs)).Open = g.Open ∧
      (agg_bucket bkt (g :: gs)).Close = ((g :: gs).getD ((g :: gs).length - 1) g).Close ∧
      (agg_bucket bkt (g :: gs)).Volume = ((g :: gs).map (fun b => b.Volume)).sum ∧
      (∀ b ∈ g :: gs, b.High ≤ (agg_bucket bkt (g :: gs)).High ∧
        (agg_bucket bkt (g :: gs)).Low ≤ b.Low) ∧
      (∃ b ∈ g :: gs, (agg_bucket bkt (g :: gs)).High = b.High) ∧
      (∃ b ∈ g :: gs, (agg_bucket bkt (g :: gs)).Low = b.Low)) ∧
    (∀ (bars : List Bar) (bkt : ℕ),
      (∃ a ∈ resample_4h bars, a.timestamp = bkt * 4) ↔
        ∃ b ∈ bars, bucket_of b = bkt) ∧
    resample_4h [bar_a, bar_b] = [⟨10, 13, 8, 12, 300, 0⟩] := by
  refine ⟨fun bkt g gs => ⟨rfl, ?_, rfl, ?_, ?_, ?_⟩, resample_4h_buckets, ?_⟩
  · show ((g :: gs).getLastD g).Close = _
    rw [getLastD_eq_getD]
  · intro b hb
    rcases List.mem_cons.1 hb with rfl | h
    · exact ⟨le_foldl_max _ _, foldl_min_le _ _⟩
    · exact ⟨mem_le_foldl_max _ _ _ (List.mem_map.2 ⟨b, h, rfl⟩),
        foldl_min_le_mem _ _ _ (List.mem_map.2 ⟨b, h, rfl⟩)⟩
  · rcases foldl_max_mem (gs.map (fun b => b.High)) g.High with h | h
    · exact ⟨g, List.mem_cons_self g gs, h⟩
    · obtain ⟨b, hb, hbe⟩ := List.mem_map.1 h
      exact ⟨b, List.mem_cons_of_mem g hb, hbe.symm⟩
  · rcases foldl_min_mem (gs.map (fun b => b.Low)) g.Low with h | h
    · exact ⟨g, List.mem_cons_self g gs, h⟩
    · obtain ⟨b, hb, hbe⟩ := List.mem_map.1 h
      exact ⟨b, List.mem_cons_of_mem g hb, hbe.symm⟩
  · show resample_4h [bar_a, bar_b] = [⟨10, 13, 8, 12, 300, 0⟩]
    simp [resample_4h, bar_a, bar_b, bucket_of, agg_bucket, List.dedup_cons_of_mem,
      List.filter]
    norm_num

/-- Witness for C8 at the two sample bars in bucket 0. -/
theorem resample_4h_spec_witness :
    (agg_bucket 0 [bar_a, bar_b]).Open = bar_a.Open ∧
    (bar_b.High ≤ (agg_bucket 0 [bar_a, bar_b]).High ∧
      (agg_bucket 0 [bar_a, bar_b]).Low ≤ bar_b.Low) ∧
    ((∃ a ∈ resample_4h [bar_a, bar_b], a.timestamp = 0 * 4) ↔
      ∃ b ∈ [bar_a, bar_b], bucket_of b = 0) :=
  ⟨(resample_4h_spec.1 0 bar_a [bar_b]).1,
   (resample_4h_spec.1 0 bar_a [bar_b]).2.2.2.1 bar_b (by decide),
   resample_4h_spec.2.1 [bar_a, bar_b] 0⟩

/-! ### Structure of alert keys -/

lemma alert_key_data (c : Crossover) :
    (alert_key c).data = c.symbol.data ++ '_' :: c.timestamp.data := by
  show (c.symbol ++ "_" ++ c.timestamp).data = _
  rw [String.data_append, String.data_append]
  simp [List.append_assoc]

lemma underscore_split :
    ∀ (l1 : List Char) {l2 r1 r2 : List Char}, '_' ∉ l1 → '_' ∉ l2 →
      l1 ++ '_' :: r1 = l2 ++ '_' :: r2 → l1 = l2 ∧ r1 = r2 := by
  intro l1
  induction l1 with
  | nil =>
    intro l2 r1 r2 h1 h2 h
    cases l2 with
    | nil => simpa using h
    | cons b bs =>
      rw [List.nil_append, List.cons_append] at h
      obtain ⟨hb, -⟩ := List.cons.inj h
      exact absurd (hb ▸ List.mem_cons_self b bs) h2
  | cons a as ih =>
    intro l2 r1 r2 h1 h2 h
    cases l2 with
    | nil =>
      rw [List.nil_append, List.cons_append] at h
      obtain ⟨hb, -⟩ := List.cons.inj h
      exact absurd (hb ▸ List.mem_cons_self a as) h1
    | cons b bs =>
      rw [List.cons_append, List.cons_append] at h
      obtain ⟨hab, htail⟩ := List.cons.inj h
      have h1' : '_' ∉ as := fun hx => h1 (List.mem_cons_of_mem a hx)
      have h2' : '_' ∉ bs := fun hx => h2 (List.mem_cons_of_mem b hx)
      obtain ⟨hl, hr⟩ := ih h1' h2' htail
      exact ⟨by rw [hab, hl], hr⟩

/-- C10: the alert key is the literal string `symbol ++ "_" ++ timestamp`
where the stored timestamp is the scan-time passed to event creation (not
a bar timestamp); for a fixed symbol different creation times give
different keys; an event is excluded from the new-event list exactly when
its key is in the previous ledger; and for underscore-free symbols
(as all universe symbols are once `.NS` is stripped) key equality forces
both the same symbol and the same creation timestamp. -/
theorem alert_key_dedup_spec :
    (∀ (symbol now prevSig currSig : String) (macdVal sigVal priceVal : ℚ)
        (timeframe : String),
      (make_crossover symbol now prevSig currSig macdVal sigVal priceVal
        timeframe).timestamp = now ∧
      alert_key (make_crossover symbol now prevSig currSig macdVal sigVal priceVal
        timeframe) = symbol.replace ".NS" "" ++ "_" ++ now) ∧
    (∀ c c' : Crossover, c.symbol = c'.symbol → c.timestamp ≠ c'.timestamp →
      alert_key c ≠ alert_key c') ∧
    (∀ (previous_alerts : Finset String) (cs : List Crossover) (c : Crossover),
      c ∈ cs →
      (c ∉ new_alerts previous_alerts cs ↔ alert_key c ∈ previous_alerts)) ∧
    (∀ c c' : Crossover, '_' ∉ c.symbol.data → '_' ∉ c'.symbol.data →
      (alert_key c = alert_key c' ↔
        c.symbol = c'.symbol ∧ c.timestamp = c'.timestamp)) := by
  refine ⟨fun symbol now prevSig currSig m s p tf => ⟨rfl, rfl⟩, ?_, ?_, ?_⟩
  · intro c c' hsym hts h
    apply hts
    have hd := congrArg String.data h
    rw [alert_key_data, alert_key_data, hsym] at hd
    have htl := List.append_cancel_left hd
    obtain ⟨-, ht⟩ := List.cons.inj htl
    exact String.ext ht
  · intro prev cs c hc
    simp [new_alerts, List.mem_filter, hc]
  · intro c c' h1 h2
    constructor
    · intro h
      have hd := congrArg String.data h
      rw [alert_key_data, alert_key_data] at hd
      obtain ⟨hs, ht⟩ := underscore_split c.symbol.data h1 h2 hd
      exact ⟨String.ext hs, String.ext ht⟩
    · rintro ⟨hs, ht⟩
      show c.symbol ++ "_" ++ c.timestamp = c'.symbol ++ "_" ++ c'.timestamp
      rw [hs, ht]

/-- Witness for C10 at the sample events (`event_A` and `event_C` share a
symbol but not a creation time). -/
theorem alert_key_dedup_spec_witness :
    alert_key event_A ≠ alert_key event_C ∧
    (event_A ∉ new_alerts {alert_key event_A} [event_A] ↔
      alert_key event_A ∈ ({alert_key event_A} : Finset String)) ∧
    (alert_key event_A = alert_key event_B ↔
      event_A.symbol = event_B.symbol ∧ event_A.timestamp = event_B.timestamp) :=
  ⟨alert_key_dedup_spec.2.1 event_A event_C (by decide) (by decide),
   alert_key_dedup_spec.2.2.1 {alert_key event_A} [event_A] event_A (by decide),
   alert_key_dedup_spec.2.2.2 event_A event_B (by decide) (by decide)⟩

end MacdScanner
